import Mathlib

/-!
Shallow embedding of the `totp-rs` TOTP library (`src/lib.rs`).

The library computes RFC 6238 time-based one-time passwords: a Base32
secret is decoded, the epoch time is divided by a 30-second period to a
counter, HMAC-SHA1 is run over the 8-byte big-endian counter, the digest
is dynamically truncated, reduced modulo 1,000,000 and zero-padded to six
decimal digits.

Machine integers are modelled as `Nat` with explicit `% 2 ^ w` where
overflow matters; byte strings are `List Nat` of values below 256;
fallible operations return `Except` / `Option`.

The library delegates to two external crates, modelled here from their
documented standard semantics:
* `hmacsha1::hmac_sha1` — HMAC-SHA1 (RFC 2104 over RFC 3174 SHA-1,
  64-byte block size, 20-byte digest): `sha1`, `hmacSha1` below;
* `data_encoding::BASE32` — RFC 4648 Base32 (uppercase alphabet `A`–`Z`
  and `2`–`7`, `=` padding to 8-character blocks, canonical: non-zero
  trailing bits rejected, no case folding), decoded 8-character block by
  block so that concatenations of padded chunks are accepted, as the
  crate's `decode` documents (its padded decode loop strips trailing `=`
  from every block and enforces the `5·d mod 8 < 5` data-symbol-count
  rule per block): `b32Decode` below.
-/

set_option maxRecDepth 100000

namespace Totp

/-- Big-endian byte expansion: `beBytes k v` is the `k`-byte big-endian
encoding of `v mod 2^(8k)`.  `beBytes 8` models Rust `u64::to_be_bytes`. -/
def beBytes : Nat → Nat → List Nat
  | 0, _ => []
  | k + 1, v => (v / 2 ^ (8 * k) % 256) :: beBytes k v

/-- Big-endian byte expansion of a 32-bit word (4 bytes). -/
def wordToBytes (w : Nat) : List Nat :=
  [w / 2 ^ 24 % 256, w / 2 ^ 16 % 256, w / 2 ^ 8 % 256, w % 256]

/-- Group a byte list into big-endian 32-bit words (4 bytes each). -/
def bytesToWords : List Nat → List Nat
  | b0 :: b1 :: b2 :: b3 :: rest =>
      (((b0 * 256 + b1) * 256 + b2) * 256 + b3) :: bytesToWords rest
  | _ => []

/-- 32-bit left rotation. -/
def rotl (n x : Nat) : Nat := ((x <<< n) ||| (x >>> (32 - n))) % 2 ^ 32

/-- SHA-1 round function (RFC 3174 `f_t`), on 32-bit words. -/
def sha1f (i b c d : Nat) : Nat :=
  if i < 20 then (b &&& c) ||| ((b ^^^ 0xffffffff) &&& d)
  else if i < 40 then (b ^^^ c) ^^^ d
  else if i < 60 then ((b &&& c) ||| (b &&& d)) ||| (c &&& d)
  else (b ^^^ c) ^^^ d

/-- SHA-1 round constants (RFC 3174 `K_t`). -/
def sha1k (i : Nat) : Nat :=
  if i < 20 then 0x5a827999
  else if i < 40 then 0x6ed9eba1
  else if i < 60 then 0x8f1bbcdc
  else 0xca62c1d6

/-- Message-schedule extension: append `steps` further words, each
`rotl 1 (w[t-3] xor w[t-8] xor w[t-14] xor w[t-16])`. -/
def sha1ExtendAux : List Nat → Nat → List Nat
  | ws, 0 => ws
  | ws, steps + 1 =>
      let n := ws.length
      let w := rotl 1 (((ws.getD (n - 3) 0) ^^^ (ws.getD (n - 8) 0)) ^^^
        ((ws.getD (n - 14) 0) ^^^ (ws.getD (n - 16) 0)))
      sha1ExtendAux (ws ++ [w]) steps

/-- The 80 SHA-1 compression rounds over the word schedule. -/
def sha1Rounds : Nat × Nat × Nat × Nat × Nat → List Nat → Nat → Nat × Nat × Nat × Nat × Nat
  | st, [], _ => st
  | (a, b, c, d, e), w :: ws, i =>
      let temp := (rotl 5 a + sha1f i b c d + e + sha1k i + w) % 2 ^ 32
      sha1Rounds (temp, a, rotl 30 b, c, d) ws (i + 1)

/-- Process one 64-byte block into the running hash state. -/
def sha1Block (h : Nat × Nat × Nat × Nat × Nat) (block : List Nat) :
    Nat × Nat × Nat × Nat × Nat :=
  let ws := sha1ExtendAux (bytesToWords block) 64
  match h, sha1Rounds h ws 0 with
  | (h0, h1, h2, h3, h4), (a, b, c, d, e) =>
      ((h0 + a) % 2 ^ 32, (h1 + b) % 2 ^ 32, (h2 + c) % 2 ^ 32,
       (h3 + d) % 2 ^ 32, (h4 + e) % 2 ^ 32)

/-- Fold `sha1Block` over successive 64-byte blocks; `fuel` bounds the
number of steps (any value at least the message length works). -/
def sha1ProcessAux : Nat → Nat × Nat × Nat × Nat × Nat → List Nat → Nat × Nat × Nat × Nat × Nat
  | 0, h, _ => h
  | _, h, [] => h
  | fuel + 1, h, msg => sha1ProcessAux fuel (sha1Block h (msg.take 64)) (msg.drop 64)

/-- SHA-1 padding: append `0x80`, zeros to 56 mod 64, then the 8-byte
big-endian bit length. -/
def sha1Pad (msg : List Nat) : List Nat :=
  let l := msg.length
  let k := (120 - (l + 1) % 64) % 64
  msg ++ [0x80] ++ List.replicate k 0 ++ beBytes 8 (8 * l)

/-- SHA-1 initial state. -/
def sha1Init : Nat × Nat × Nat × Nat × Nat :=
  (0x67452301, 0xefcdab89, 0x98badcfe, 0x10325476, 0xc3d2e1f0)

/-- Serialise the final state into the 20-byte digest. -/
def sha1Out : Nat × Nat × Nat × Nat × Nat → List Nat
  | (a, b, c, d, e) =>
      wordToBytes a ++ wordToBytes b ++ wordToBytes c ++ wordToBytes d ++ wordToBytes e

/-- SHA-1 of a byte string (RFC 3174). -/
def sha1 (msg : List Nat) : List Nat :=
  let padded := sha1Pad msg
  sha1Out (sha1ProcessAux padded.length sha1Init padded)

/-- HMAC-SHA1 (RFC 2104): models the `hmacsha1` crate's
`hmac_sha1(key, message) -> [u8; 20]`. -/
def hmacSha1 (key msg : List Nat) : List Nat :=
  let k0 := if 64 < key.length then sha1 key else key
  let kp := k0 ++ List.replicate (64 - k0.length) 0
  sha1 ((kp.map fun b => b ^^^ 0x5c) ++ sha1 ((kp.map fun b => b ^^^ 0x36) ++ msg))

/-- Value of one RFC 4648 Base32 symbol (`A`–`Z` ↦ 0–25, `2`–`7` ↦ 26–31),
`none` outside the alphabet (no case folding). -/
def b32CharVal (c : Char) : Option Nat :=
  if 'A' ≤ c ∧ c ≤ 'Z' then some (c.toNat - 65)
  else if '2' ≤ c ∧ c ≤ '7' then some (c.toNat - 24)
  else none

/-- Decode every character of a group, failing on any non-alphabet char. -/
def b32ValsAux : List Char → Option (List Nat)
  | [] => some []
  | c :: cs =>
      match b32CharVal c, b32ValsAux cs with
      | some v, some vs => some (v :: vs)
      | _, _ => none

/-- Pack 5-bit symbol values big-endian into one number. -/
def b32GroupNum (vs : List Nat) : Nat := vs.foldl (fun a x => a * 32 + x) 0

/-- Decode the data symbols of one (possibly padded) Base32 block: the
symbol count `d` must satisfy the crate's padding-length rule
`5 * d % 8 < 5` (admitting 0, 2, 4, 5, 7 or 8 symbols), every symbol
must be in the alphabet, and (canonical check) the trailing bits must be
zero. -/
def b32DecodeGroup (cs : List Char) : Option (List Nat) :=
  let d := cs.length
  if 5 * d % 8 < 5 then
    match b32ValsAux cs with
    | none => none
    | some vs =>
        let v := b32GroupNum vs
        let nbytes := 5 * d / 8
        let r := 5 * d - 8 * nbytes
        if v % 2 ^ r = 0 then some (beBytes nbytes (v / 2 ^ r)) else none
  else none

/-- Decode a Base32 character stream block by block, as the crate's
padded decode loop does: the length must be a multiple of 8, and each
8-character block independently has its trailing `=` padding stripped and
its data prefix decoded — so concatenations of padded chunks are
accepted, with `=` before a data symbol of the same block rejected as an
invalid symbol. -/
def b32DecodeBlocks : List Char → Option (List Nat)
  | [] => some []
  | c0 :: c1 :: c2 :: c3 :: c4 :: c5 :: c6 :: c7 :: rest =>
      let g := [c0, c1, c2, c3, c4, c5, c6, c7]
      let p := (g.reverse.takeWhile fun c => c = '=').length
      match b32DecodeGroup (g.take (8 - p)), b32DecodeBlocks rest with
      | some bs, some bs2 => some (bs ++ bs2)
      | _, _ => none
  | _ => none

/-- Base32 decoding of a string: models `data_encoding::BASE32.decode`
(padded, canonical, uppercase alphabet, concatenated padded chunks
accepted). -/
def b32Decode (s : String) : Option (List Nat) := b32DecodeBlocks s.data

/-- `TOTPErrorReason` from `src/lib.rs`. -/
inductive TOTPErrorReason where
  | InvalidKey
  | InvalidTime
  deriving DecidableEq

/-- `TOTPError` from `src/lib.rs`. -/
structure TOTPError where
  reason : TOTPErrorReason
  deriving DecidableEq

/-- `TIME_PERIOD` constant from `src/lib.rs`. -/
def TIME_PERIOD : Nat := 30

/-- `begin_period_with_time` from `src/lib.rs`: `time / TIME_PERIOD`. -/
def begin_period_with_time (time : Nat) : Nat := time / TIME_PERIOD

/-- `end_period_with_time` from `src/lib.rs`:
`begin_period_with_time time + TIME_PERIOD`. -/
def end_period_with_time (time : Nat) : Nat := begin_period_with_time time + TIME_PERIOD

/-- `key_to_bytes` from `src/lib.rs`: Base32-decode the key, mapping
decode failure to `InvalidKey`. -/
def key_to_bytes (key : String) : Except TOTPError (List Nat) :=
  match b32Decode key with
  | some bs => Except.ok bs
  | none => Except.error ⟨TOTPErrorReason.InvalidKey⟩

/-- `hash_time` from `src/lib.rs`: HMAC-SHA1 of the 8-byte big-endian
time under the key. -/
def hash_time (key : List Nat) (time : Nat) : List Nat :=
  hmacSha1 key (beBytes 8 time)

/-- The dynamic-truncation offset of `hash_to_code`: low nibble of the
digest's last byte (`hash[19] & 0xf`). -/
def hash_to_code_offset (hash : List Nat) : Nat := hash.getD 19 0 &&& 0xf

/-- `hash_to_code` from `src/lib.rs`: RFC 4226 dynamic truncation of a
20-byte digest. -/
def hash_to_code (hash : List Nat) : Nat :=
  let offset := hash_to_code_offset hash
  (hash.getD (offset + 0) 0 &&& 0x7f) <<< 24 |||
  (hash.getD (offset + 1) 0 &&& 0xff) <<< 16 |||
  (hash.getD (offset + 2) 0 &&& 0xff) <<< 8 |||
  (hash.getD (offset + 3) 0 &&& 0xff)

/-- `last_six_digits_of_num` from `src/lib.rs`: `num % 1000000`. -/
def last_six_digits_of_num (num : Nat) : Nat := num % 1000000

/-- The ASCII digit character for `n < 10`. -/
def digitChar (n : Nat) : Char := Char.ofNat (48 + n)

/-- Decimal rendering of a natural number with explicit fuel (most
significant digit first); total and structurally recursive so that it
evaluates by kernel reduction. -/
def natReprAux : Nat → Nat → List Char
  | 0, _ => []
  | fuel + 1, n =>
      if n < 10 then [digitChar n]
      else natReprAux fuel (n / 10) ++ [digitChar (n % 10)]

/-- Decimal rendering of a natural number (no leading zeros, `"0"` for 0),
the semantics of Rust `u64` `Display`. -/
def natRepr (n : Nat) : List Char := natReprAux (n + 1) n

/-- Left-pad a character list with `'0'` to width `w` (no truncation),
the semantics of Rust format alignment `{:0>w}`. -/
def padLeftZero (w : Nat) (s : List Char) : List Char :=
  List.replicate (w - s.length) '0' ++ s

/-- `code_to_str` from `src/lib.rs`: `format!("{:0>6}", num % 1000000)`. -/
def code_to_str (code : Nat) : String :=
  ⟨padLeftZero 6 (natRepr (last_six_digits_of_num code))⟩

/-- `otp_with_time` from `src/lib.rs` (the spec's `otp_at`): the full
TOTP pipeline at an injected epoch time. -/
def otp_with_time (key : String) (epoch : Nat) : Except TOTPError String :=
  match key_to_bytes key with
  | Except.error e => Except.error e
  | Except.ok bs =>
      Except.ok (code_to_str (hash_to_code (hash_time bs (begin_period_with_time epoch))))

/-! ### Spec-side pipeline

Definitions transcribed from the specification's own wording (§4), to be
compared with the source-side definitions above. -/

/-- Spec §4.1 `time_step_start`: `epoch_seconds / 30`. -/
def time_step_start (epoch_seconds : Nat) : Nat := epoch_seconds / 30

/-- Spec §4.3 `hmac_over_counter`: HMAC-SHA1 with `secret` as key over
the 8-byte big-endian encoding of `counter`. -/
def hmac_over_counter (secret : List Nat) (counter : Nat) : List Nat :=
  hmacSha1 secret (beBytes 8 counter)

/-- Spec §4.3 `dynamic_truncate`: `offset = digest[19] & 0x0F`, extract
`digest[offset..offset+4]` as a big-endian 32-bit value with `& 0x7F` on
the first extracted byte. -/
def dynamic_truncate (digest : List Nat) : Nat :=
  let offset := digest.getD 19 0 &&& 0xf
  (digest.getD offset 0 &&& 0x7f) * 2 ^ 24 + digest.getD (offset + 1) 0 * 2 ^ 16 +
    digest.getD (offset + 2) 0 * 2 ^ 8 + digest.getD (offset + 3) 0

/-- Spec §4.3 `reduce_to_digits`: `value mod 10^digit_count`. -/
def reduce_to_digits (value digit_count : Nat) : Nat := value % 10 ^ digit_count

/-- Spec §4.3 `format_code`: decimal string left-padded with `'0'` to
`digit_count` characters. -/
def format_code (value digit_count : Nat) : String :=
  ⟨padLeftZero digit_count (natRepr value)⟩

/-- Spec §4.4 `otp_at`, assembled from the spec-side pieces: decode the
secret, take `time_step_start` as the counter, run the HOTP engine,
reduce modulo 10^6 and format to 6 digits. -/
def otp_at_spec (secret : String) (epoch_seconds : Nat) : Except TOTPError String :=
  match b32Decode secret with
  | none => Except.error ⟨TOTPErrorReason.InvalidKey⟩
  | some k =>
      Except.ok (format_code
        (reduce_to_digits (dynamic_truncate (hmac_over_counter k (time_step_start epoch_seconds))) 6) 6)

/-! ### Helper lemmas -/

/-- Disjoint-bit `or` is addition: shifted value or-ed with a low part. -/
lemma shiftLeft_lor_eq_add (a : Nat) {b k : Nat} (hb : b < 2 ^ k) :
    a <<< k ||| b = a * 2 ^ k + b := by
  rw [Nat.shiftLeft_eq, Nat.mul_comm a, ← Nat.mul_add_lt_is_or hb]

/-- The four byte lanes of dynamic truncation assemble to big-endian
arithmetic. -/
lemma lor4_eq {A B C D : Nat} (hB : B < 256) (hC : C < 256) (hD : D < 256) :
    A <<< 24 ||| B <<< 16 ||| C <<< 8 ||| D =
      A * 2 ^ 24 + B * 2 ^ 16 + C * 2 ^ 8 + D := by
  have h16 : B <<< 16 < 2 ^ 24 := by
    rw [Nat.shiftLeft_eq]
    omega
  have h8 : C <<< 8 < 2 ^ 16 := by
    rw [Nat.shiftLeft_eq]
    omega
  have e1 : A <<< 24 ||| B <<< 16 = (A * 2 ^ 8 + B) <<< 16 := by
    rw [shiftLeft_lor_eq_add A h16, Nat.shiftLeft_eq, Nat.shiftLeft_eq]
    ring
  have e2 : (A * 2 ^ 8 + B) <<< 16 ||| C <<< 8 = (((A * 2 ^ 8 + B) * 2 ^ 8) + C) <<< 8 := by
    rw [shiftLeft_lor_eq_add _ h8, Nat.shiftLeft_eq, Nat.shiftLeft_eq]
    ring
  have hDlt : D < 2 ^ 8 := by omega
  rw [e1, e2, shiftLeft_lor_eq_add _ hDlt]
  ring

/-- Bytes of a serialised word are below 256. -/
lemma mem_wordToBytes_lt {w b : Nat} (h : b ∈ wordToBytes w) : b < 256 := by
  simp only [wordToBytes, List.mem_cons, List.not_mem_nil, or_false] at h
  rcases h with h | h | h | h <;> omega

/-- A serialised SHA-1 state has 20 bytes. -/
lemma sha1Out_length (t : Nat × Nat × Nat × Nat × Nat) : (sha1Out t).length = 20 := by
  obtain ⟨a, b, c, d, e⟩ := t
  simp [sha1Out, wordToBytes]

/-- Bytes of a serialised SHA-1 state are below 256. -/
lemma mem_sha1Out_lt {t : Nat × Nat × Nat × Nat × Nat} {b : Nat} (h : b ∈ sha1Out t) :
    b < 256 := by
  obtain ⟨x0, x1, x2, x3, x4⟩ := t
  simp only [sha1Out, List.mem_append] at h
  rcases h with ((((h | h) | h) | h) | h) <;> exact mem_wordToBytes_lt h

/-- A SHA-1 digest has 20 bytes. -/
lemma sha1_length (msg : List Nat) : (sha1 msg).length = 20 :=
  sha1Out_length _

/-- SHA-1 digest bytes are below 256. -/
lemma mem_sha1_lt {msg : List Nat} {b : Nat} (h : b ∈ sha1 msg) : b < 256 :=
  mem_sha1Out_lt h

/-- An HMAC-SHA1 digest has 20 bytes. -/
lemma hmacSha1_length (key msg : List Nat) : (hmacSha1 key msg).length = 20 :=
  sha1_length _

/-- HMAC-SHA1 digest bytes are below 256. -/
lemma mem_hmacSha1_lt {key msg : List Nat} {b : Nat} (h : b ∈ hmacSha1 key msg) : b < 256 :=
  mem_sha1_lt h

/-- `getD` with default 0 on a list of bytes stays below 256. -/
lemma getD_lt_of_forall {l : List Nat} (hl : ∀ b ∈ l, b < 256) (i : Nat) :
    l.getD i 0 < 256 := by
  induction l generalizing i with
  | nil => simp [List.getD]
  | cons a l ih =>
      cases i with
      | zero => exact hl a (List.mem_cons_self a l)
      | succ j =>
          rw [List.getD_cons_succ]
          exact ih (fun b hb => hl b (List.mem_cons_of_mem a hb)) j

/-- Masking a byte with `0xff` is the identity. -/
lemma and_255_eq {x : Nat} (hx : x < 256) : x &&& 0xff = x := by
  have h2 : (0xff : Nat) = 2 ^ 8 - 1 := by norm_num
  rw [h2]
  exact Nat.and_pow_two_sub_one_of_lt_two_pow (by omega)

/-- `hash_to_code` agrees with the spec's `dynamic_truncate` on any
digest whose entries are bytes. -/
lemma hash_to_code_eq_dynamic {digest : List Nat} (hb : ∀ b ∈ digest, b < 256) :
    hash_to_code digest = dynamic_truncate digest := by
  have h1 := getD_lt_of_forall hb (hash_to_code_offset digest + 1)
  have h2 := getD_lt_of_forall hb (hash_to_code_offset digest + 2)
  have h3 := getD_lt_of_forall hb (hash_to_code_offset digest + 3)
  show (digest.getD (hash_to_code_offset digest + 0) 0 &&& 0x7f) <<< 24 |||
      (digest.getD (hash_to_code_offset digest + 1) 0 &&& 0xff) <<< 16 |||
      (digest.getD (hash_to_code_offset digest + 2) 0 &&& 0xff) <<< 8 |||
      (digest.getD (hash_to_code_offset digest + 3) 0 &&& 0xff) =
    (digest.getD (hash_to_code_offset digest) 0 &&& 0x7f) * 2 ^ 24 +
      digest.getD (hash_to_code_offset digest + 1) 0 * 2 ^ 16 +
      digest.getD (hash_to_code_offset digest + 2) 0 * 2 ^ 8 +
      digest.getD (hash_to_code_offset digest + 3) 0
  rw [and_255_eq h1, and_255_eq h2, and_255_eq h3, Nat.add_zero]
  exact lor4_eq h1 h2 h3

/-- A number below `10^k` renders in at most `k` digits. -/
lemma natReprAux_length_le :
    ∀ fuel n k, n < fuel → n < 10 ^ k → 0 < k → (natReprAux fuel n).length ≤ k := by
  intro fuel
  induction fuel with
  | zero => intro n k hn _ _; omega
  | succ fuel ih =>
      intro n k hn hk hk0
      rw [natReprAux]
      by_cases hsmall : n < 10
      · simp [hsmall]
        omega
      · simp only [hsmall, if_false, List.length_append, List.length_cons, List.length_nil]
        have hk2 : 2 ≤ k := by
          rcases Nat.lt_or_ge k 2 with h | h
          · have hk1 : k = 1 := by omega
            subst hk1
            norm_num at hk
            omega
          · exact h
        have hdiv : n / 10 < fuel := by
          have : n / 10 < n := Nat.div_lt_self (by omega) (by omega)
          omega
        have hpow : n / 10 < 10 ^ (k - 1) := by
          rw [Nat.div_lt_iff_lt_mul (by omega)]
          have : 10 ^ (k - 1) * 10 = 10 ^ k := by
            rw [← Nat.pow_succ]
            congr 1
            omega
          omega
        have := ih (n / 10) (k - 1) hdiv hpow (by omega)
        omega

/-- Every character produced by the renderer is an ASCII digit. -/
lemma digitChar_isDigit : ∀ n, n < 10 → (digitChar n).isDigit = true := by decide

/-- All characters of a rendered number are ASCII digits. -/
lemma mem_natReprAux_isDigit :
    ∀ fuel n c, c ∈ natReprAux fuel n → c.isDigit = true := by
  intro fuel
  induction fuel with
  | zero => intro n c hc; simp [natReprAux] at hc
  | succ fuel ih =>
      intro n c hc
      rw [natReprAux] at hc
      by_cases hsmall : n < 10
      · simp [hsmall] at hc
        subst hc
        exact digitChar_isDigit n hsmall
      · simp only [hsmall, if_false, List.mem_append, List.mem_cons, List.not_mem_nil,
          or_false] at hc
        rcases hc with hc | hc
        · exact ih (n / 10) c hc
        · subst hc
          exact digitChar_isDigit (n % 10) (Nat.mod_lt n (by omega))

/-- `code_to_str` always yields exactly 6 characters. -/
lemma code_to_str_length (c : Nat) : (code_to_str c).length = 6 := by
  have hlt : last_six_digits_of_num c < 10 ^ 6 := by
    have := Nat.mod_lt c (show 0 < 1000000 by omega)
    simp only [last_six_digits_of_num]
    omega
  have hle : (natRepr (last_six_digits_of_num c)).length ≤ 6 :=
    natReprAux_length_le _ _ 6 (Nat.lt_succ_self _) hlt (by omega)
  show (padLeftZero 6 (natRepr (last_six_digits_of_num c))).length = 6
  simp only [padLeftZero, List.length_append, List.length_replicate]
  omega

/-- Every character of `code_to_str` is an ASCII digit. -/
lemma code_to_str_digits (c : Nat) : ∀ ch ∈ (code_to_str c).data, ch.isDigit = true := by
  intro ch hch
  have : ch ∈ padLeftZero 6 (natRepr (last_six_digits_of_num c)) := hch
  simp only [padLeftZero, List.mem_append, List.mem_replicate] at this
  rcases this with ⟨_, h0⟩ | hmem
  · subst h0; rfl
  · exact mem_natReprAux_isDigit _ _ ch hmem

/-- `code_to_str` is the spec's reduce-then-format at 6 digits. -/
lemma code_to_str_eq_format (v : Nat) : code_to_str v = format_code (reduce_to_digits v 6) 6 := by
  show (⟨padLeftZero 6 (natRepr (v % 1000000))⟩ : String) =
    ⟨padLeftZero 6 (natRepr (v % 10 ^ 6))⟩
  norm_num

/-! ### Claims -/

/-- Claim C1: `otp_with_time` applied to the secret `"TKI3J4MD6HBVVLAB"`
and epoch seconds 1578082942 returns `Ok` of exactly `"075767"`. -/
theorem otp_concrete_vector :
    otp_with_time "TKI3J4MD6HBVVLAB" 1578082942 = Except.ok "075767" := by
  rfl

/-- Claim C2: for every secret that decodes as valid Base32 and every
epoch time, `otp_with_time` equals the spec-side composition
`otp_at_spec` (decode, counter = epoch / 30, HMAC-SHA1 over the 8-byte
big-endian counter, dynamic truncation of the 20-byte digest, reduction
modulo 1,000,000, 6-digit formatting). -/
theorem otp_with_time_refines_spec (key : String) (epoch : Nat)
    (h : b32Decode key ≠ none) :
    otp_with_time key epoch = otp_at_spec key epoch := by
  rcases hd : b32Decode key with _ | bs
  · exact absurd hd h
  · have hbytes : ∀ b ∈ hash_time bs (begin_period_with_time epoch), b < 256 :=
      fun b hb => mem_hmacSha1_lt hb
    simp only [otp_with_time, otp_at_spec, key_to_bytes, hd]
    rw [code_to_str_eq_format, hash_to_code_eq_dynamic hbytes]
    rfl

/-- Witness for C2 at the concrete secret `""`. -/
theorem otp_with_time_refines_spec_witness :
    otp_with_time "" 0 = otp_at_spec "" 0 :=
  otp_with_time_refines_spec "" 0 (by decide)

/-- Claim C3: on a 20-byte digest, `hash_to_code` computes exactly the
dynamic-truncation extraction (`offset = digest[19] & 0x0F`, big-endian
32-bit window with `& 0x7F` on its first byte, the body of
`dynamic_truncate`), and its result is a 31-bit value: strictly below
`2^31` with bit 31 zero. -/
theorem hash_to_code_dynamic_31bit (digest : List Nat) (_hlen : digest.length = 20)
    (hb : ∀ b ∈ digest, b < 256) :
    hash_to_code digest = dynamic_truncate digest ∧
      hash_to_code digest < 2 ^ 31 ∧ (hash_to_code digest).testBit 31 = false := by
  have heq := hash_to_code_eq_dynamic hb
  have hlt : hash_to_code digest < 2 ^ 31 := by
    rw [heq]
    have hA : digest.getD (digest.getD 19 0 &&& 0xf) 0 &&& 0x7f ≤ 0x7f := Nat.and_le_right
    have h1 := getD_lt_of_forall hb ((digest.getD 19 0 &&& 0xf) + 1)
    have h2 := getD_lt_of_forall hb ((digest.getD 19 0 &&& 0xf) + 2)
    have h3 := getD_lt_of_forall hb ((digest.getD 19 0 &&& 0xf) + 3)
    show (digest.getD (digest.getD 19 0 &&& 0xf) 0 &&& 0x7f) * 2 ^ 24 +
        digest.getD ((digest.getD 19 0 &&& 0xf) + 1) 0 * 2 ^ 16 +
        digest.getD ((digest.getD 19 0 &&& 0xf) + 2) 0 * 2 ^ 8 +
        digest.getD ((digest.getD 19 0 &&& 0xf) + 3) 0 < 2 ^ 31
    omega
  exact ⟨heq, hlt, Nat.testBit_lt_two_pow hlt⟩

/-- Witness for C3 at the concrete digest `List.range 20`. -/
theorem hash_to_code_dynamic_31bit_witness :
    hash_to_code (List.range 20) = dynamic_truncate (List.range 20) ∧
      hash_to_code (List.range 20) < 2 ^ 31 ∧
      (hash_to_code (List.range 20)).testBit 31 = false :=
  hash_to_code_dynamic_31bit (List.range 20) (by decide) (by decide)

/-- Claim C4: for every valid Base32 secret and every epoch time,
`otp_with_time` returns `Ok` of a string of exactly 6 ASCII digits. -/
theorem otp_six_ascii_digits (key : String) (epoch : Nat)
    (h : b32Decode key ≠ none) :
    ∃ s, otp_with_time key epoch = Except.ok s ∧ s.length = 6 ∧
      ∀ c ∈ s.data, c.isDigit = true := by
  rcases hd : b32Decode key with _ | bs
  · exact absurd hd h
  · refine ⟨code_to_str (hash_to_code (hash_time bs (begin_period_with_time epoch))),
      ?_, code_to_str_length _, code_to_str_digits _⟩
    simp only [otp_with_time, key_to_bytes, hd]

/-- Witness for C4 at the concrete secret `""` and epoch 0. -/
theorem otp_six_ascii_digits_witness :
    ∃ s, otp_with_time "" 0 = Except.ok s ∧ s.length = 6 ∧
      ∀ c ∈ s.data, c.isDigit = true :=
  otp_six_ascii_digits "" 0 (by decide)

/-- Claim C5: two epoch times in the same 30-second window produce the same
OTP for every secret. -/
theorem otp_window_stability (key : String) (t1 t2 : Nat) (h : t1 / 30 = t2 / 30) :
    otp_with_time key t1 = otp_with_time key t2 := by
  have hbp : begin_period_with_time t1 = begin_period_with_time t2 := h
  simp only [otp_with_time, hbp]

/-- Witness for C5 at the concrete window `0/30 = 29/30`. -/
theorem otp_window_stability_witness :
    otp_with_time "" 0 = otp_with_time "" 29 :=
  otp_window_stability "" 0 29 (by decide)

/-- Claim C7: `begin_period_with_time t` is `t / 30` and
`end_period_with_time t` is `begin_period_with_time t + 30`, for all `t`. -/
theorem period_arithmetic (t : Nat) :
    begin_period_with_time t = t / 30 ∧
      end_period_with_time t = begin_period_with_time t + 30 :=
  ⟨rfl, rfl⟩

/-- Claim C8: on a 20-byte digest the dynamic-truncation offset is at most
15, so the largest index read by `hash_to_code` is `offset + 3 ≤ 18 < 20`:
every access is in bounds. -/
theorem truncation_offset_in_bounds (hash : List Nat) (h : hash.length = 20) :
    hash_to_code_offset hash ≤ 15 ∧ hash_to_code_offset hash + 3 ≤ 18 ∧
      18 < hash.length := by
  have hle : hash_to_code_offset hash ≤ 15 := Nat.and_le_right
  exact ⟨hle, by omega, by omega⟩

/-- Witness for C8 at the concrete digest `List.replicate 20 7`. -/
theorem truncation_offset_in_bounds_witness :
    hash_to_code_offset (List.replicate 20 7) ≤ 15 ∧
      hash_to_code_offset (List.replicate 20 7) + 3 ≤ 18 ∧
      18 < (List.replicate 20 7).length :=
  truncation_offset_in_bounds (List.replicate 20 7) (by decide)

/-- Claim C9: value 42 reduced modulo 10^6 and formatted at 6 digits is
exactly `"000042"`, through both the source-side `code_to_str` and the
spec-side `reduce_to_digits`/`format_code`. -/
theorem format_42_padded :
    code_to_str 42 = "000042" ∧ format_code (reduce_to_digits 42 6) 6 = "000042" :=
  ⟨rfl, rfl⟩

/-- Claim C10: the empty secret is accepted: it decodes to the empty key
and `otp_with_time "" epoch` returns `Ok` of a 6-character code for every
epoch. -/
theorem otp_empty_key_ok (epoch : Nat) :
    b32Decode "" = some [] ∧
      ∃ s, otp_with_time "" epoch = Except.ok s ∧ s.length = 6 :=
  ⟨rfl, ⟨code_to_str (hash_to_code (hash_time [] (begin_period_with_time epoch))),
    rfl, code_to_str_length _⟩⟩

end Totp
